import Mathlib

/-!
Verification of the media-pipeline core of the screen-recorder repository.

Each C++ component the claims touch is embedded as executable Lean
definitions: the frame pacer (src/sync/frame_pacer.h), the session state
machine (src/controller/session_machine.h), the bounded MPSC ring queue
(src/utils/bounded_queue.h), the audio capture producer's push
(src/audio/audio_engine.cpp), the encode-loop pacing call site
(src/controller/session_controller.cpp), the storage path transformation
(src/storage/storage_manager.h), the power clamp (PowerModeDetector) and the
mux writer (src/storage/mux_writer.cpp).  Machine integers are modelled as
Int/Nat; environment outcomes (HRESULTs, MoveFileEx, power status) are
explicit boolean/optional inputs.
-/

/- ----------------------------------------------------------------------
FramePacer — src/sync/frame_pacer.h
---------------------------------------------------------------------- -/

/-- Result classification of `FramePacer::pace_frame`. -/
inductive PaceAction where
  | Accept
  | Duplicate
  | Drop
deriving DecidableEq, Repr

/-- State of `sr::FramePacer`: target interval in 100ns units, last raw PTS,
last smoothed PTS, and the two telemetry counters. -/
structure FramePacer where
  target_interval : Int
  last_pts : Int
  smoothed_pts : Int
  dups : Nat
  drops : Nat
deriving DecidableEq, Repr

/-- `FramePacer::initialize(fps)`: target interval is `10'000'000 / fps`
(integer division on positive values) or the 30fps default when `fps = 0`;
pacing state is cleared. -/
def FramePacer.init (fps : Nat) : FramePacer :=
  { target_interval := if 0 < fps then ((10000000 / fps : Nat) : Int) else 333333
  , last_pts := -1
  , smoothed_pts := -1
  , dups := 0
  , drops := 0 }

/-- `FramePacer::reset()`: clears the pacing baseline, keeps the counters. -/
def FramePacer.reset (p : FramePacer) : FramePacer :=
  { p with last_pts := -1, smoothed_pts := -1 }

/-- `FramePacer::pace_frame(raw_pts, queue_full, &out_pts)` from
src/sync/frame_pacer.h lines 59–95.  Returns the action, the out PTS and the
updated pacer state. -/
def FramePacer.pace_frame (p : FramePacer) (raw_pts : Int) (queue_full : Bool) :
    PaceAction × Int × FramePacer :=
  if queue_full then
    (PaceAction.Drop, raw_pts, { p with drops := p.drops + 1 })
  else if p.last_pts < 0 then
    (PaceAction.Accept, raw_pts, { p with smoothed_pts := raw_pts, last_pts := raw_pts })
  else
    let gap : Int := raw_pts - p.last_pts
    let threshold_150pct : Int := p.target_interval * 3 / 2
    let clamped_gap : Int := min gap (p.target_interval * 2)
    let smoothed : Int := p.smoothed_pts + clamped_gap
    if gap > threshold_150pct then
      (PaceAction.Duplicate, smoothed,
        { p with dups := p.dups + 1, smoothed_pts := smoothed, last_pts := raw_pts })
    else
      (PaceAction.Accept, smoothed,
        { p with smoothed_pts := smoothed, last_pts := raw_pts })

/-- Feed a list of raw PTS values through the pacer with `queue_full = false`,
collecting each call's action and out PTS. -/
def paceRun : FramePacer → List Int → List (PaceAction × Int)
  | _, [] => []
  | p, x :: xs =>
    let r := p.pace_frame x false
    (r.1, r.2.1) :: paceRun r.2.2 xs

/-- The sub-sequence of out PTS values whose action is Accept or Duplicate. -/
def acceptedOuts (outs : List (PaceAction × Int)) : List Int :=
  outs.filterMap fun r => if r.1 = PaceAction.Drop then none else some r.2

example : paceRun (FramePacer.init 30) [333333, 666666, 2000000, 2333333] =
    [(PaceAction.Accept, 333333), (PaceAction.Accept, 666666),
     (PaceAction.Duplicate, 1333332), (PaceAction.Accept, 1666665)] := by decide

/- ----------------------------------------------------------------------
SessionMachine — src/controller/session_machine.h
---------------------------------------------------------------------- -/

/-- `sr::SessionState`. -/
inductive SessionState where
  | Idle
  | Recording
  | Paused
  | Stopping
deriving DecidableEq, Repr, Fintype

/-- `sr::SessionEvent`. -/
inductive SessionEvent where
  | Start
  | Stop
  | Pause
  | Resume
  | Finalized
deriving DecidableEq, Repr, Fintype

/-- The switch of `SessionMachine::transition` (lines 59–98): the new state
for a valid (state, event) pair, `none` when the event is rejected. -/
def transitionTarget : SessionState → SessionEvent → Option SessionState
  | SessionState.Idle, SessionEvent.Start => some SessionState.Recording
  | SessionState.Recording, SessionEvent.Stop => some SessionState.Stopping
  | SessionState.Recording, SessionEvent.Pause => some SessionState.Paused
  | SessionState.Paused, SessionEvent.Resume => some SessionState.Recording
  | SessionState.Paused, SessionEvent.Stop => some SessionState.Stopping
  | SessionState.Stopping, SessionEvent.Finalized => some SessionState.Idle
  | _, _ => none

/-- `sr::SessionMachine`: the current state and whether an `on_state_change_`
callback is registered (`set_callback`). -/
structure SessionMachine where
  state : SessionState
  hasCallback : Bool
deriving DecidableEq, Repr

/-- `SessionMachine::transition(event)`: returns the boolean result, the
machine after the call, and the list of `(old, new)` invocations of the
registered callback made during the call. -/
def SessionMachine.transition (m : SessionMachine) (event : SessionEvent) :
    Bool × SessionMachine × List (SessionState × SessionState) :=
  match transitionTarget m.state event with
  | none => (false, m, [])
  | some new_state =>
      (true, { m with state := new_state },
        if m.hasCallback then [(m.state, new_state)] else [])

/- ----------------------------------------------------------------------
BoundedQueue — src/utils/bounded_queue.h
---------------------------------------------------------------------- -/

/-- State of `sr::BoundedQueue<T, Capacity>`: the ring buffer of
`Capacity + 1` slots (a slot never written holds `none`), and the head and
tail indices. -/
structure QState (α : Type) where
  buf : Nat → Option α
  head : Nat
  tail : Nat

/-- A freshly constructed queue: `head_ = tail_ = 0`. -/
def qinit (α : Type) : QState α := ⟨fun _ => none, 0, 0⟩

/-- `BoundedQueue::try_push` (lines 41–51): compute the next head slot; when
it equals the tail the queue is full and nothing is stored; otherwise the
item is written at the old head and the head advances. -/
def tryPush {α : Type} (cap : Nat) (q : QState α) (item : α) : Bool × QState α :=
  let next := (q.head + 1) % (cap + 1)
  if next = q.tail then
    (false, q)
  else
    (true, ⟨fun j => if j = q.head then some item else q.buf j, next, q.tail⟩)

/-- `BoundedQueue::try_pop` (lines 55–63): empty when `tail_ = head_`,
otherwise return the slot at the tail and advance the tail. -/
def tryPop {α : Type} (cap : Nat) (q : QState α) : Option α × QState α :=
  if q.tail = q.head then
    (none, q)
  else
    (q.buf q.tail, ⟨q.buf, q.head, (q.tail + 1) % (cap + 1)⟩)

/-- `BoundedQueue::size` (lines 77–81). -/
def qsize {α : Type} (cap : Nat) (q : QState α) : Nat :=
  if q.tail ≤ q.head then q.head - q.tail else cap + 1 - q.tail + q.head

/-- `BoundedQueue::full` (lines 88–91). -/
def qfull {α : Type} (cap : Nat) (q : QState α) : Bool :=
  (q.head + 1) % (cap + 1) == q.tail

/-- One queue operation: a producer's `try_push` of an item, or the
consumer's `try_pop`. -/
inductive QOp (α : Type) where
  | push (a : α)
  | pop

/-- Apply one operation to the queue state. -/
def qstep {α : Type} (cap : Nat) (q : QState α) : QOp α → QState α
  | QOp.push a => (tryPush cap q a).2
  | QOp.pop => (tryPop cap q).2

/-- Run a sequence of operations from the freshly constructed queue. -/
def qrun {α : Type} (cap : Nat) (ops : List (QOp α)) : QState α :=
  ops.foldl (qstep cap) (qinit α)

/-- Head and tail always index one of the `cap + 1` ring slots. -/
def qinv {α : Type} (cap : Nat) (q : QState α) : Prop :=
  q.head < cap + 1 ∧ q.tail < cap + 1

/- ----------------------------------------------------------------------
Audio capture producer — src/audio/audio_engine.cpp lines 180–182
---------------------------------------------------------------------- -/

/-- The audio capture loop's hand-off of a finished packet to the queue:
`queue_->try_push(std::move(pkt));` — the boolean result is ignored, so the
queue state after the call is whatever `try_push` left. -/
def audioCapturePush {α : Type} (cap : Nat) (q : QState α) (pkt : α) : QState α :=
  (tryPush cap q pkt).2

/- ----------------------------------------------------------------------
Encode-loop pacing call site — src/controller/session_controller.cpp 307–324
---------------------------------------------------------------------- -/

/-- One video iteration of `SessionController::encode_loop`, up to the pacer
call: pop the frame queue (capacity 5); skip if no frame or if the machine is
paused; otherwise compute `queue_full = (frame_queue_->size() == 0)` on the
queue as left by the pop (line 316) and call `pace_frame`.  Returns the
pacer's result for a processed frame, `none` when no frame reached the
pacer. -/
def encodeIterAction (paused : Bool) (p : FramePacer) (q : QState Int) :
    Option (PaceAction × Int × FramePacer) :=
  let r := tryPop 5 q
  match r.1 with
  | none => none
  | some pts =>
      if paused then none
      else some (p.pace_frame pts (qsize 5 r.2 == 0))

/- ----------------------------------------------------------------------
StorageManager::partialToFinal — src/storage/storage_manager.h lines 99–106
---------------------------------------------------------------------- -/

/-- The searched suffix literal `L".partial.mp4"` (12 characters). -/
def dotPartialMp4 : List Char := ".partial.mp4".data

/-- `std::wstring::replace(pos, len, repl)` restricted to this call site. -/
def replaceAt (s : List Char) (pos len : Nat) (repl : List Char) : List Char :=
  s.take pos ++ repl ++ s.drop (pos + len)

/-- `std::wstring::rfind(pat)`: the largest index at which `pat` occurs as a
prefix of the remainder of `s`, `none` (npos) when `pat` occurs nowhere. -/
def rfindIdx (s pat : List Char) : Option Nat :=
  (List.range (s.length + 1)).reverse.find? fun i => pat.isPrefixOf (s.drop i)

/-- `StorageManager::partialToFinal`: replace the last occurrence of
`".partial.mp4"` (12 characters) by `".mp4"`; return the input unchanged when
the pattern does not occur. -/
def partialToFinal (s : List Char) : List Char :=
  match rfindIdx s dotPartialMp4 with
  | none => s
  | some pos => replaceAt s pos 12 ".mp4".data

example : partialToFinal "dir/X.partial.mp4".data = "dir/X.mp4".data := by decide

/- ----------------------------------------------------------------------
PowerModeDetector — encoder probe header (power_mode.h section)
---------------------------------------------------------------------- -/

/-- `sr::EncoderProfile` (render_frame.h). -/
structure EncoderProfile where
  fps : Nat
  bitrate_bps : Nat
  width : Nat
  height : Nat
  gop_seconds : Nat
  low_latency : Bool
  b_frames : Nat
deriving DecidableEq, Repr

/-- `PowerModeDetector::is_on_ac_power`: `none` models a failed
`GetSystemPowerStatus` call (treated as AC); otherwise AC iff the reported
`ACLineStatus` byte is nonzero (so 1 = AC and 255 = unknown are both AC). -/
def is_on_ac_power (acLineStatus : Option Nat) : Bool :=
  match acLineStatus with
  | none => true
  | some s => s != 0

/-- `PowerModeDetector::clamp_for_power` (lines 64–80). -/
def clamp_for_power (acLineStatus : Option Nat) (requested : EncoderProfile) :
    EncoderProfile :=
  if is_on_ac_power acLineStatus then
    requested
  else
    { requested with
      fps := min requested.fps 30
      bitrate_bps := min requested.bitrate_bps 8000000 }

/- ----------------------------------------------------------------------
MuxWriter — src/storage/mux_writer.cpp
---------------------------------------------------------------------- -/

/-- State of `sr::MuxWriter`: whether `sink_writer_` is non-null, the
`initialized_` flag, whether the exclusive lock handle is held, the two
paths, and the byte counter. -/
structure MuxWriter where
  sinkActive : Bool
  initialized : Bool
  lockHeld : Bool
  partialPath : List Char
  finalPath : List Char
  bytesWritten : Nat
deriving DecidableEq, Repr

/-- On-disk situation of the session's output: whether a file exists at the
staging (`.partial.mp4`) path and at the final path. -/
structure FsState where
  stagingExists : Bool
  finalExists : Bool
deriving DecidableEq, Repr

/-- `MuxWriter::initialize` on a fresh writer, with the environment's
outcomes as inputs: `createOk` is `MFCreateSinkWriterFromURL` succeeding,
`lockOk` the `CreateFileW` lock acquisition (non-fatal either way), `restOk`
whether the stream configuration and `BeginWriting` calls all succeed.  The
paths are stored first; `initialized_` becomes true only at the end. -/
def MuxWriter.init (pp fp : List Char) (createOk lockOk restOk : Bool) :
    Bool × MuxWriter :=
  if createOk = false then
    (false, ⟨false, false, false, pp, fp, 0⟩)
  else if restOk = false then
    (false, ⟨true, false, lockOk, pp, fp, 0⟩)
  else
    (true, ⟨true, true, lockOk, pp, fp, 0⟩)

/-- `MuxWriter::write_video` (lines 148–161): rejected without touching the
sink when not initialized; otherwise the sample is forwarded and on success
the byte counter grows.  The last component records whether a `WriteSample`
call was forwarded to the underlying sink writer. -/
def MuxWriter.write_video (w : MuxWriter) (sampleLen : Nat) (writeOk : Bool) :
    Bool × MuxWriter × Bool :=
  if w.initialized = false then
    (false, w, false)
  else if writeOk = false then
    (false, w, true)
  else
    (true, { w with bytesWritten := w.bytesWritten + sampleLen }, true)

/-- `MuxWriter::write_audio` (lines 163–174): same shape as `write_video` on
the audio stream index. -/
def MuxWriter.write_audio (w : MuxWriter) (sampleLen : Nat) (writeOk : Bool) :
    Bool × MuxWriter × Bool :=
  if w.initialized = false then
    (false, w, false)
  else if writeOk = false then
    (false, w, true)
  else
    (true, { w with bytesWritten := w.bytesWritten + sampleLen }, true)

/-- `MuxWriter::finalize` (lines 176–208) with the environment's outcomes as
inputs: `closeOk` is `SUCCEEDED(sink_writer_->Finalize())`, `renameOk`
whether `MoveFileExW` succeeds.  When `sink_writer_` is null the call returns
true at once; otherwise `initialized_` is cleared, the sink and the lock are
released, and when both paths are non-empty the staging file is renamed —
rename failure returns false and leaves the file system as it was; rename
success moves the staging file onto the final path and the call returns the
muxer-close outcome. -/
def MuxWriter.finalize (w : MuxWriter) (fs : FsState) (closeOk renameOk : Bool) :
    Bool × MuxWriter × FsState :=
  if w.sinkActive = false then
    (true, w, fs)
  else
    let w1 : MuxWriter :=
      { w with initialized := false, sinkActive := false, lockHeld := false }
    if w.partialPath ≠ [] ∧ w.finalPath ≠ [] then
      if renameOk = false then
        (false, w1, fs)
      else
        (closeOk, w1, { stagingExists := false, finalExists := true })
    else
      (closeOk, w1, fs)

/-- A write call on the mux writer: video or audio, with the sample length
and the environment's `WriteSample` outcome. -/
inductive WOp where
  | wv (len : Nat) (ok : Bool)
  | wa (len : Nat) (ok : Bool)

/-- Run a sequence of write calls, collecting each call's boolean result and
whether it forwarded a sample to the underlying sink writer. -/
def runWrites (w : MuxWriter) : List WOp → List (Bool × Bool)
  | [] => []
  | WOp.wv len ok :: rest =>
      let r := w.write_video len ok
      (r.1, r.2.2) :: runWrites r.2.1 rest
  | WOp.wa len ok :: rest =>
      let r := w.write_audio len ok
      (r.1, r.2.2) :: runWrites r.2.1 rest

/- ----------------------------------------------------------------------
Helper lemmas
---------------------------------------------------------------------- -/

/-- A non-occurrence reported by `rfind` leaves `partialToFinal` the
identity. -/
theorem partialToFinal_of_rfind_none (s : List Char)
    (h : rfindIdx s dotPartialMp4 = none) : partialToFinal s = s := by
  unfold partialToFinal
  rw [h]

/-- `rfind` reports no occurrence exactly when the pattern is a prefix of no
tail of the string (stated for the non-empty pattern `".partial.mp4"`). -/
theorem rfindIdx_none_iff (s : List Char) :
    rfindIdx s dotPartialMp4 = none ↔
      ∀ i, dotPartialMp4.isPrefixOf (s.drop i) = false := by
  unfold rfindIdx
  rw [List.find?_eq_none]
  constructor
  · intro h i
    by_cases hi : i < s.length + 1
    · have hm := h i (by simpa using hi)
      exact Bool.eq_false_iff.mpr hm
    · have hlen : s.length ≤ i := by omega
      rw [List.drop_eq_nil_of_le hlen]
      rfl
  · intro h i _
    simp [h i]

/-- Both queue indices stay inside the ring after any single operation. -/
theorem qinv_step {α : Type} (cap : Nat) (q : QState α) (op : QOp α)
    (h : qinv cap q) : qinv cap (qstep cap q op) := by
  obtain ⟨h1, h2⟩ := h
  have hpos : 0 < cap + 1 := Nat.succ_pos cap
  cases op with
  | push a =>
      by_cases hc : (q.head + 1) % (cap + 1) = q.tail
      · simp only [qstep, tryPush, hc, if_pos]
        exact ⟨h1, h2⟩
      · simp only [qstep, tryPush, if_neg hc]
        exact ⟨Nat.mod_lt _ hpos, h2⟩
  | pop =>
      by_cases hc : q.tail = q.head
      · simp only [qstep, tryPop, hc, if_pos]
        exact ⟨h1, h2⟩
      · simp only [qstep, tryPop, if_neg hc]
        exact ⟨h1, Nat.mod_lt _ hpos⟩

/-- The ring-index invariant holds in every reachable queue state. -/
theorem qinv_run {α : Type} (cap : Nat) (ops : List (QOp α)) :
    qinv cap (qrun cap ops) := by
  have general : ∀ (l : List (QOp α)) (q : QState α), qinv cap q →
      qinv cap (l.foldl (qstep cap) q) := by
    intro l
    induction l with
    | nil => intro q h; exact h
    | cons op rest ih =>
        intro q h
        exact ih (qstep cap q op) (qinv_step cap q op h)
  exact general ops (qinit α) ⟨Nat.succ_pos cap, Nat.succ_pos cap⟩

/-- Under the ring-index invariant the occupancy never exceeds the
capacity. -/
theorem qsize_le_cap {α : Type} (cap : Nat) (q : QState α) (h : qinv cap q) :
    qsize cap q ≤ cap := by
  obtain ⟨h1, h2⟩ := h
  unfold qsize
  split <;> omega

/-- A writer that is not initialized rejects every write in a sequence and
forwards none of them to the sink. -/
theorem runWrites_of_not_initialized (ops : List WOp) :
    ∀ (u : MuxWriter), u.initialized = false →
      runWrites u ops = ops.map fun _ => (false, false) := by
  induction ops with
  | nil => intro u _; rfl
  | cons op rest ih =>
      intro u h
      cases op with
      | wv len ok =>
          simp only [runWrites, MuxWriter.write_video, h]
          simp [ih u h]
      | wa len ok =>
          simp only [runWrites, MuxWriter.write_audio, h]
          simp [ih u h]

/-- The pacer's decisions and emissions never depend on the drop counter. -/
theorem paceRun_drops_irrelevant (future : List Int) :
    ∀ (t l s : Int) (du d1 d2 : Nat),
      paceRun ⟨t, l, s, du, d1⟩ future = paceRun ⟨t, l, s, du, d2⟩ future := by
  induction future with
  | nil => intro t l s du d1 d2; rfl
  | cons x xs ih =>
      intro t l s du d1 d2
      by_cases hb : l < 0
      · simp only [paceRun, FramePacer.pace_frame, Bool.false_eq_true, if_false, hb, if_pos]
        exact congrArg _ (ih t x x du d1 d2)
      · by_cases hd : x - l > t * 3 / 2
        · simp only [paceRun, FramePacer.pace_frame, Bool.false_eq_true, if_false,
            if_neg hb, if_pos hd]
          exact congrArg _ (ih t x (s + min (x - l) (t * 2)) (du + 1) d1 d2)
        · simp only [paceRun, FramePacer.pace_frame, Bool.false_eq_true, if_false,
            if_neg hb, if_neg hd]
          exact congrArg _ (ih t x (s + min (x - l) (t * 2)) du d1 d2)

/-- An Accept emission is kept by the Accept/Duplicate sub-sequence. -/
theorem acceptedOuts_cons_accept (x : Int) (rest : List (PaceAction × Int)) :
    acceptedOuts ((PaceAction.Accept, x) :: rest) = x :: acceptedOuts rest := by
  simp [acceptedOuts]

/-- A Duplicate emission is kept by the Accept/Duplicate sub-sequence. -/
theorem acceptedOuts_cons_dup (x : Int) (rest : List (PaceAction × Int)) :
    acceptedOuts ((PaceAction.Duplicate, x) :: rest) = x :: acceptedOuts rest := by
  simp [acceptedOuts]

/-- A Drop emission is skipped by the Accept/Duplicate sub-sequence. -/
theorem acceptedOuts_cons_drop (x : Int) (rest : List (PaceAction × Int)) :
    acceptedOuts ((PaceAction.Drop, x) :: rest) = acceptedOuts rest := by
  simp [acceptedOuts]

/-- Main induction for pacer monotonicity: from a state whose target interval
is at least one tick and whose bootstrap baseline is coherent, feeding a
strictly increasing continuation of the last raw PTS emits a strictly
increasing continuation of the last smoothed PTS. -/
theorem paceRun_chain_increasing (xs : List Int) :
    ∀ (p : FramePacer), 1 ≤ p.target_interval →
      (p.last_pts < 0 → p.smoothed_pts = p.last_pts) →
      List.Chain' (fun a b => a < b) (p.last_pts :: xs) →
      List.Chain' (fun a b => a < b)
        (p.smoothed_pts :: acceptedOuts (paceRun p xs)) := by
  induction xs with
  | nil =>
      intro p _ _ _
      simp [paceRun, acceptedOuts]
  | cons x tail ih =>
      intro p ht hboot hchain
      rw [List.chain'_cons] at hchain
      obtain ⟨hlt, hchain⟩ := hchain
      by_cases hb : p.last_pts < 0
      · have hstep : paceRun p (x :: tail) =
            (PaceAction.Accept, x) ::
              paceRun { p with smoothed_pts := x, last_pts := x } tail := by
          simp [paceRun, FramePacer.pace_frame, hb]
        rw [hstep, acceptedOuts_cons_accept, List.chain'_cons]
        have htail := ih { p with smoothed_pts := x, last_pts := x }
          ht (fun _ => rfl) hchain
        exact ⟨lt_of_eq_of_lt (hboot hb) hlt, htail⟩
      · have hx0 : 0 ≤ p.last_pts := le_of_not_lt hb
        have hclamp : 1 ≤ min (x - p.last_pts) (p.target_interval * 2) := by
          have hgap : 1 ≤ x - p.last_pts := by omega
          have h2t : 2 ≤ p.target_interval * 2 := by omega
          omega
        have hsm : p.smoothed_pts <
            p.smoothed_pts + min (x - p.last_pts) (p.target_interval * 2) := by
          omega
        by_cases hd : x - p.last_pts > p.target_interval * 3 / 2
        · have hstep : paceRun p (x :: tail) =
              (PaceAction.Duplicate,
                 p.smoothed_pts + min (x - p.last_pts) (p.target_interval * 2)) ::
                paceRun
                  { p with
                      dups := p.dups + 1,
                      smoothed_pts :=
                        p.smoothed_pts + min (x - p.last_pts) (p.target_interval * 2),
                      last_pts := x } tail := by
            simp [paceRun, FramePacer.pace_frame, hb, hd]
          rw [hstep, acceptedOuts_cons_dup, List.chain'_cons]
          have htail := ih
            { p with
                dups := p.dups + 1,
                smoothed_pts :=
                  p.smoothed_pts + min (x - p.last_pts) (p.target_interval * 2),
                last_pts := x }
            ht (fun hneg => absurd (show x < (0 : Int) from hneg) (by omega)) hchain
          exact ⟨hsm, htail⟩
        · have hstep : paceRun p (x :: tail) =
              (PaceAction.Accept,
                 p.smoothed_pts + min (x - p.last_pts) (p.target_interval * 2)) ::
                paceRun
                  { p with
                      smoothed_pts :=
                        p.smoothed_pts + min (x - p.last_pts) (p.target_interval * 2),
                      last_pts := x } tail := by
            simp [paceRun, FramePacer.pace_frame, hb, hd]
          rw [hstep, acceptedOuts_cons_accept, List.chain'_cons]
          have htail := ih
            { p with
                smoothed_pts :=
                  p.smoothed_pts + min (x - p.last_pts) (p.target_interval * 2),
                last_pts := x }
            ht (fun hneg => absurd (show x < (0 : Int) from hneg) (by omega)) hchain
          exact ⟨hsm, htail⟩

/- ----------------------------------------------------------------------
Claim theorems
---------------------------------------------------------------------- -/

/-- C1: the claim says the encode loop always passes `queue_full = false` to
`pace_frame`, so a dequeued frame is never classified as a backpressure Drop
there.  The code instead computes `queue_full = (frame_queue_->size() == 0)`
after the pop, which is true precisely when the popped frame was the only
one queued: at the failing input — a non-paused session, a fresh 30 fps
pacer and a queue holding exactly one frame with PTS 333333 — the computed
flag is true and the dequeued frame comes back as Drop. -/
theorem c1_encode_queue_full_bug :
    (tryPop 5 (qrun 5 [QOp.push (333333 : Int)])).1 = some 333333 ∧
    (qsize 5 (tryPop 5 (qrun 5 [QOp.push (333333 : Int)])).2 == 0) = true ∧
    encodeIterAction false (FramePacer.init 30) (qrun 5 [QOp.push (333333 : Int)]) =
      some (PaceAction.Drop, 333333, { FramePacer.init 30 with drops := 1 }) :=
  ⟨rfl, rfl, rfl⟩

/-- C2 (amended): for a pacer initialized with a positive fps of at most
10^7 (so the target interval is at least one 100ns tick) and a strictly
increasing sequence of raw PTS values fed with `queue_full = false`, the
sub-sequence of out PTS values returned with action Accept or Duplicate is
strictly increasing. -/
theorem c2_pacer_outputs_increasing (fps : Nat) (inputs : List Int)
    (hfps1 : 1 ≤ fps) (hfps2 : fps ≤ 10000000)
    (hmono : List.Chain' (fun a b => a < b) inputs) :
    List.Chain' (fun a b => a < b)
      (acceptedOuts (paceRun (FramePacer.init fps) inputs)) := by
  have htarget : 1 ≤ (FramePacer.init fps).target_interval := by
    have h1 : (1 : Nat) ≤ 10000000 / fps := (Nat.one_le_div_iff (by omega)).mpr hfps2
    simp only [FramePacer.init]
    rw [if_pos (by omega)]
    exact_mod_cast h1
  cases inputs with
  | nil => simp [paceRun, acceptedOuts]
  | cons x xs =>
      have hneg : (FramePacer.init fps).last_pts < 0 := by norm_num [FramePacer.init]
      have hstep : paceRun (FramePacer.init fps) (x :: xs) =
          (PaceAction.Accept, x) ::
            paceRun { FramePacer.init fps with smoothed_pts := x, last_pts := x } xs := by
        simp [paceRun, FramePacer.pace_frame, hneg]
      rw [hstep, acceptedOuts_cons_accept]
      exact paceRun_chain_increasing xs
        { FramePacer.init fps with smoothed_pts := x, last_pts := x }
        htarget (fun _ => rfl) hmono

/-- C2 witness: the amended theorem applied at 30 fps to the strictly
increasing inputs `[0, 333333, 1000000]`. -/
theorem c2_pacer_outputs_increasing_witness :
    List.Chain' (fun a b => a < b)
      (acceptedOuts (paceRun (FramePacer.init 30) [0, 333333, 1000000])) :=
  c2_pacer_outputs_increasing 30 [0, 333333, 1000000] (by decide) (by decide)
    (by norm_num [List.chain'_cons])

/-- C2 counterexample to the claim as stated: a 30 fps pacer (positive fps)
fed the raw PTS sequence `[100, 100]` with `queue_full = false` emits two
Accept outputs `[100, 100]`, which is not strictly increasing — the code has
no lower clamp on the PTS advance, so a non-increasing raw sequence defeats
the property. -/
theorem c2_pacer_claim_cex :
    ¬ List.Chain' (fun a b => a < b)
        (acceptedOuts (paceRun (FramePacer.init 30) [100, 100])) := by
  have hev : acceptedOuts (paceRun (FramePacer.init 30) [100, 100]) = [100, 100] := by
    decide
  rw [hev]
  simp [List.chain'_cons]

/-- C3: `SessionMachine::transition` accepts exactly the six table pairs,
moves to the table's target on acceptance, leaves the machine unchanged on
rejection, and with a registered callback invokes it exactly once on
acceptance and never on rejection. -/
theorem c3_transition_table (m : SessionMachine) (event : SessionEvent)
    (hcb : m.hasCallback = true) :
    ((m.transition event).1 = true ↔
      (m.state, event) ∈
        [(SessionState.Idle, SessionEvent.Start),
         (SessionState.Recording, SessionEvent.Pause),
         (SessionState.Recording, SessionEvent.Stop),
         (SessionState.Paused, SessionEvent.Resume),
         (SessionState.Paused, SessionEvent.Stop),
         (SessionState.Stopping, SessionEvent.Finalized)]) ∧
    ((m.transition event).2.1.state =
      match m.state, event with
      | SessionState.Idle, SessionEvent.Start => SessionState.Recording
      | SessionState.Recording, SessionEvent.Pause => SessionState.Paused
      | SessionState.Recording, SessionEvent.Stop => SessionState.Stopping
      | SessionState.Paused, SessionEvent.Resume => SessionState.Recording
      | SessionState.Paused, SessionEvent.Stop => SessionState.Stopping
      | SessionState.Stopping, SessionEvent.Finalized => SessionState.Idle
      | s, _ => s) ∧
    ((m.transition event).1 = false → (m.transition event).2.1 = m) ∧
    ((m.transition event).2.2.length = if (m.transition event).1 = true then 1 else 0) := by
  obtain ⟨s, cb⟩ := m
  cases cb with
  | false => simp at hcb
  | true =>
      clear hcb
      revert event
      revert s
      decide

/-- C3 witness: the table theorem applied at the concrete machine
`(Idle, callback registered)` and event `Start`. -/
theorem c3_transition_table_witness :
    ((SessionMachine.mk SessionState.Idle true).transition SessionEvent.Start).2.2.length = 1 := by
  have h := c3_transition_table (SessionMachine.mk SessionState.Idle true)
    SessionEvent.Start rfl
  simpa using h.2.2.2

/-- C4 (amended): `partialToFinal` returns its input unchanged exactly when
`".partial.mp4"` occurs nowhere in it (the code searches with `rfind`, not
only at the end), and applying it twice equals applying it once whenever the
first application's result no longer contains an occurrence; a second
occurrence surviving the first rewrite is stripped by the second
application, so unconditional idempotence fails. -/
theorem c4_partial_to_final_idempotent (p : List Char) :
    (rfindIdx p dotPartialMp4 = none → partialToFinal p = p) ∧
    (rfindIdx (partialToFinal p) dotPartialMp4 = none →
      partialToFinal (partialToFinal p) = partialToFinal p) :=
  ⟨fun h => partialToFinal_of_rfind_none p h,
   fun h => partialToFinal_of_rfind_none (partialToFinal p) h⟩

/-- C4 witness: the amended theorem applied at `"a.partial.mp4"`, whose
image `"a.mp4"` contains no further occurrence. -/
theorem c4_partial_to_final_witness :
    partialToFinal (partialToFinal "a.partial.mp4".data) =
      partialToFinal "a.partial.mp4".data :=
  (c4_partial_to_final_idempotent "a.partial.mp4".data).2 (by decide)

/-- C4 counterexample to the claim as stated: on `"a.partial.partial.mp4"`
the first application rewrites the last occurrence and yields
`"a.partial.mp4"`, and the second application rewrites again to `"a.mp4"`,
so `partial_to_final` is not idempotent on every input. -/
theorem c4_idempotence_cex :
    partialToFinal (partialToFinal "a.partial.partial.mp4".data) ≠
      partialToFinal "a.partial.partial.mp4".data := by
  decide

/-- C5: the claim says the audio producer applies drop-oldest on a full
queue.  The capture loop instead calls `try_push` and ignores its boolean
result, so at the failing input — the audio queue (capacity 16) filled with
packets 0..15 and a fresh packet 99 produced — the push reports full, the
queue is left exactly as it was, packet 99 is not stored, and the oldest
packet 0 is still the next to pop: the new packet is dropped, not the
oldest. -/
theorem c5_audio_full_queue_drops_newest :
    qfull 16 (qrun 16 ((List.range 16).map QOp.push)) = true ∧
    (tryPush 16 (qrun 16 ((List.range 16).map QOp.push)) 99).1 = false ∧
    audioCapturePush 16 (qrun 16 ((List.range 16).map QOp.push)) 99 =
      qrun 16 ((List.range 16).map QOp.push) ∧
    (tryPop 16 (audioCapturePush 16 (qrun 16 ((List.range 16).map QOp.push)) 99)).1 =
      some 0 :=
  ⟨rfl, rfl, rfl, rfl⟩

/-- C6: on a successfully initialized writer with non-empty paths,
`finalize` returns success exactly when both the muxer close and the rename
succeed, and on rename failure the file system — in particular the staging
file — is left untouched. -/
theorem c6_finalize_success_iff (pp fp : List Char) (lockOk closeOk renameOk : Bool)
    (w : MuxWriter) (fs : FsState)
    (hpp : pp ≠ []) (hfp : fp ≠ [])
    (hw : MuxWriter.init pp fp true lockOk true = (true, w)) :
    ((w.finalize fs closeOk renameOk).1 = (closeOk && renameOk)) ∧
    (renameOk = false → (w.finalize fs closeOk renameOk).2.2 = fs) := by
  have hw' : w = ⟨true, true, lockOk, pp, fp, 0⟩ := by
    rw [show MuxWriter.init pp fp true lockOk true =
        (true, (⟨true, true, lockOk, pp, fp, 0⟩ : MuxWriter)) from rfl] at hw
    exact ((Prod.ext_iff.mp hw).2).symm
  subst hw'
  constructor
  · cases renameOk <;> cases closeOk <;> simp [MuxWriter.finalize, hpp, hfp]
  · intro hr
    subst hr
    simp [MuxWriter.finalize, hpp, hfp]

/-- C6 witness: the theorem applied to a concretely initialized writer with
paths `"a"`/`"b"`, a successful muxer close and a failing rename: the call
reports failure. -/
theorem c6_finalize_witness :
    ((MuxWriter.init ['a'] ['b'] true true true).2.finalize ⟨true, false⟩ true false).1 =
      (true && false) := by
  have h := c6_finalize_success_iff ['a'] ['b'] true true false
    (⟨true, true, true, ['a'], ['b'], 0⟩ : MuxWriter) ⟨true, false⟩
    (by decide) (by decide) rfl
  exact h.1

/-- C7: in every queue state reachable from the fresh queue by any sequence
of pushes and pops, the occupancy reported by `size()` is at most the
capacity; and `try_pop` on an empty queue returns no item and leaves the
queue — buffer and both indices — unchanged. -/
theorem c7_bounded_queue_size (α : Type) (cap : Nat) (ops : List (QOp α)) :
    qsize cap (qrun cap ops) ≤ cap ∧
    ∀ q : QState α, q.tail = q.head → tryPop cap q = (none, q) := by
  refine ⟨qsize_le_cap cap _ (qinv_run cap ops), ?_⟩
  intro q h
  simp [tryPop, h]

/-- C7 witness: the theorem applied at capacity 5 to a concrete operation
sequence and to the fresh (empty) queue. -/
theorem c7_bounded_queue_witness :
    qsize 5 (qrun 5 [QOp.push 1, QOp.push 2, QOp.pop]) ≤ 5 ∧
    tryPop 5 (qinit Nat) = (none, qinit Nat) := by
  have h := c7_bounded_queue_size Nat 5 [QOp.push 1, QOp.push 2, QOp.pop]
  exact ⟨h.1, h.2 (qinit Nat) rfl⟩

/-- C8: `clamp_for_power` passes the profile through unchanged on AC (1),
unknown (255) or failed power readings; on battery (0) it clamps fps to 30
and bitrate to 8 Mb/s; width and height are never altered. -/
theorem c8_clamp_for_power_correct (st : Option Nat) (req : EncoderProfile) :
    ((st = some 1 ∨ st = some 255 ∨ st = none) → clamp_for_power st req = req) ∧
    (st = some 0 →
      (clamp_for_power st req).fps = min req.fps 30 ∧
      (clamp_for_power st req).bitrate_bps = min req.bitrate_bps 8000000) ∧
    (clamp_for_power st req).width = req.width ∧
    (clamp_for_power st req).height = req.height := by
  refine ⟨?_, ?_, ?_, ?_⟩
  · rintro (rfl | rfl | rfl) <;> rfl
  · rintro rfl
    exact ⟨rfl, rfl⟩
  · unfold clamp_for_power
    split <;> rfl
  · unfold clamp_for_power
    split <;> rfl

/-- C8 witness: the theorem applied on AC power to a concrete 60 fps,
12 Mb/s profile, which passes through unchanged. -/
theorem c8_clamp_for_power_witness :
    clamp_for_power (some 1) ⟨60, 12000000, 1920, 1080, 2, true, 0⟩ =
      ⟨60, 12000000, 1920, 1080, 2, true, 0⟩ :=
  (c8_clamp_for_power_correct (some 1) ⟨60, 12000000, 1920, 1080, 2, true, 0⟩).1
    (Or.inl rfl)

/-- C9: after `finalize` returns on a well-formed writer (`initialized_`
implies a live sink writer, as every reachable writer state satisfies),
every subsequent `write_video`/`write_audio` call returns false and forwards
no sample to the underlying sink writer. -/
theorem c9_no_writes_after_finalize (w : MuxWriter) (fs : FsState)
    (closeOk renameOk : Bool) (ops : List WOp)
    (hwf : w.initialized = true → w.sinkActive = true) :
    runWrites (w.finalize fs closeOk renameOk).2.1 ops =
      ops.map fun _ => (false, false) := by
  have hni : ((w.finalize fs closeOk renameOk).2.1).initialized = false := by
    unfold MuxWriter.finalize
    split
    · next hcond =>
        cases hini : w.initialized
        · rfl
        · exact absurd (hwf hini) (by simp [hcond])
    · next hcond =>
        split
        · split <;> rfl
        · rfl
  exact runWrites_of_not_initialized ops _ hni

/-- C9 witness: the theorem applied to a concrete initialized writer and one
subsequent video write, which is rejected without a forwarded sample. -/
theorem c9_no_writes_after_finalize_witness :
    runWrites ((MuxWriter.finalize ⟨true, true, true, ['a'], ['b'], 0⟩ ⟨true, false⟩
        true true).2.1) [WOp.wv 3 true] = [(false, false)] := by
  have h := c9_no_writes_after_finalize ⟨true, true, true, ['a'], ['b'], 0⟩
    ⟨true, false⟩ true true [WOp.wv 3 true] (fun _ => rfl)
  simpa using h

/-- C10: a `pace_frame` call with `queue_full = true` returns Drop with the
raw PTS, increments only the drop counter, leaves `last_pts_`,
`smoothed_pts_` and the duplicate counter unchanged, and the
Accept/Duplicate out-PTS sequence any later calls produce is identical to
the one produced had the dropped call not occurred. -/
theorem c10_backpressure_drop_is_pure (p : FramePacer) (raw : Int)
    (future : List Int) :
    (p.pace_frame raw true).1 = PaceAction.Drop ∧
    (p.pace_frame raw true).2.1 = raw ∧
    ((p.pace_frame raw true).2.2).last_pts = p.last_pts ∧
    ((p.pace_frame raw true).2.2).smoothed_pts = p.smoothed_pts ∧
    ((p.pace_frame raw true).2.2).dups = p.dups ∧
    ((p.pace_frame raw true).2.2).drops = p.drops + 1 ∧
    acceptedOuts (paceRun ((p.pace_frame raw true).2.2) future) =
      acceptedOuts (paceRun p future) := by
  obtain ⟨t, l, s, du, dr⟩ := p
  refine ⟨rfl, rfl, rfl, rfl, rfl, rfl, ?_⟩
  exact congrArg acceptedOuts (paceRun_drops_irrelevant future t l s du (dr + 1) dr)
